import Mathlib

/-!
Verification of the algoRWA Black-Litterman engine against its design
specification.  The Python sources are shallowly embedded over ℚ:
pandas Series become association lists `List (String × ℚ)`, NumPy
matrices become `Fin`-indexed functions, and fallible solver calls
become `Option`-valued parameters.
-/

namespace RWAEngine

/-- Mirror of `OptimizationResult` from `strategy/types.py`. -/
structure OptimizationResult where
  tickers : List String
  weights : List ℚ
  expected_return : ℚ
  volatility : ℚ
  sharpe_ratio : ℚ
deriving DecidableEq, Repr

/-- Mirror of `InvestorView` from `strategy/types.py` (the optional
description field is omitted; it never enters any computation). -/
structure InvestorView where
  assets : List String
  weights : List ℚ
  expected_return : ℚ
  confidence : ℚ
deriving DecidableEq, Repr

/-! ## PortfolioRiskManager (`execution/risk_manager.py`)

The working pandas Series `weights = pd.Series(result.weights, result.tickers)`
is embedded as the association list `result.tickers.zip result.weights`;
every step of `apply_guardrails` is an elementwise map on that list. -/

/-- Sum of the values of the working series (`weights.sum()`). -/
def seriesSum (s : List (String × ℚ)) : ℚ :=
  (s.map Prod.snd).sum

/-- Step 1 of `apply_guardrails`: `weights[weights < 0.01] = 0.0`. -/
def dustFilter (s : List (String × ℚ)) : List (String × ℚ) :=
  s.map (fun p => (p.1, if p.2 < 1 / 100 then 0 else p.2))

/-- Step 2: `if weights.sum() > 0: weights = weights / weights.sum()`. -/
def renormalize (s : List (String × ℚ)) : List (String × ℚ) :=
  if 0 < seriesSum s then s.map (fun p => (p.1, p.2 / seriesSum s)) else s

/-- Step 3: `weights = weights * (1.0 - self.cash_buffer)`. -/
def scaleEquity (cashBuffer : ℚ) (s : List (String × ℚ)) : List (String × ℚ) :=
  s.map (fun p => (p.1, p.2 * (1 - cashBuffer)))

/-- Step 4: `weights[weights > self.max_weight] = self.max_weight`. -/
def capWeights (maxWeight : ℚ) (s : List (String × ℚ)) : List (String × ℚ) :=
  s.map (fun p => (p.1, if maxWeight < p.2 then maxWeight else p.2))

/-- The working series right before the USDC assignment: the composition
of dust filter, renormalization, cash-buffer scaling and the hard cap.
Its sum is the `final_equity_sum` of the source. -/
def processedSeries (cashBuffer maxWeight : ℚ) (r : OptimizationResult) :
    List (String × ℚ) :=
  capWeights maxWeight (scaleEquity cashBuffer (renormalize (dustFilter
    (r.tickers.zip r.weights))))

/-- Step 5: `weights["USDC"] = usdc_weight`.  pandas label assignment
overwrites every entry labelled USDC when the label exists and appends a
new entry otherwise. -/
def setUSDC (s : List (String × ℚ)) (u : ℚ) : List (String × ℚ) :=
  if s.any (fun p => p.1 = "USDC") then
    s.map (fun p => (p.1, if p.1 = "USDC" then u else p.2))
  else
    s ++ [("USDC", u)]

/-- Mirror of `PortfolioRiskManager.apply_guardrails`: dust filter,
renormalize, scale to the equity target, cap, assign the USDC residual
`max(1 - final_equity_sum, 0)`, and rescale the return and volatility
metrics by `final_equity_sum`. -/
def applyGuardrails (cashBuffer maxWeight : ℚ) (r : OptimizationResult) :
    OptimizationResult :=
  let s := processedSeries cashBuffer maxWeight r
  let finalEquitySum := seriesSum s
  let usdcWeight := max (1 - finalEquitySum) 0
  let s5 := setUSDC s usdcWeight
  { tickers := s5.map Prod.fst
    weights := s5.map Prod.snd
    expected_return := r.expected_return * finalEquitySum
    volatility := r.volatility * finalEquitySum
    sharpe_ratio := r.sharpe_ratio }

/-! ### Basic bookkeeping lemmas about the guardrail pipeline -/

theorem seriesSum_nil : seriesSum [] = 0 := rfl

theorem seriesSum_cons (p : String × ℚ) (s : List (String × ℚ)) :
    seriesSum (p :: s) = p.2 + seriesSum s := by
  simp [seriesSum]

theorem seriesSum_append (s t : List (String × ℚ)) :
    seriesSum (s ++ t) = seriesSum s + seriesSum t := by
  simp [seriesSum]

theorem seriesSum_map_div (s : List (String × ℚ)) (t : ℚ) :
    seriesSum (s.map (fun p => (p.1, p.2 / t))) = seriesSum s / t := by
  induction s with
  | nil => simp [seriesSum]
  | cons p s ih => simp [seriesSum_cons, ih, add_div]

theorem seriesSum_scaleEquity (cashBuffer : ℚ) (s : List (String × ℚ)) :
    seriesSum (scaleEquity cashBuffer s) = seriesSum s * (1 - cashBuffer) := by
  induction s with
  | nil => simp [scaleEquity, seriesSum]
  | cons p s ih =>
      simp only [scaleEquity, List.map_cons, seriesSum_cons] at *
      rw [ih]; ring

theorem seriesSum_capWeights_le (maxWeight : ℚ) (s : List (String × ℚ)) :
    seriesSum (capWeights maxWeight s) ≤ seriesSum s := by
  induction s with
  | nil => simp [capWeights]
  | cons p s ih =>
      simp only [capWeights, List.map_cons, seriesSum_cons] at *
      have : (if maxWeight < p.2 then maxWeight else p.2) ≤ p.2 := by
        split <;> linarith
      linarith

theorem seriesSum_renormalize (s : List (String × ℚ)) :
    seriesSum (renormalize s) = 1 ∨ seriesSum (renormalize s) ≤ 0 := by
  unfold renormalize
  by_cases h : 0 < seriesSum s
  · left
    rw [if_pos h, seriesSum_map_div, div_self (ne_of_gt h)]
  · right
    rw [if_neg h]
    linarith [not_lt.mp h]

theorem map_fst_dustFilter (s : List (String × ℚ)) :
    (dustFilter s).map Prod.fst = s.map Prod.fst := by
  simp [dustFilter, List.map_map]

theorem map_fst_renormalize (s : List (String × ℚ)) :
    (renormalize s).map Prod.fst = s.map Prod.fst := by
  unfold renormalize
  split <;> simp [List.map_map]

theorem map_fst_scaleEquity (cashBuffer : ℚ) (s : List (String × ℚ)) :
    (scaleEquity cashBuffer s).map Prod.fst = s.map Prod.fst := by
  simp [scaleEquity, List.map_map]

theorem map_fst_capWeights (maxWeight : ℚ) (s : List (String × ℚ)) :
    (capWeights maxWeight s).map Prod.fst = s.map Prod.fst := by
  simp [capWeights, List.map_map]

theorem map_fst_processedSeries (cashBuffer maxWeight : ℚ)
    (r : OptimizationResult) (hlen : r.tickers.length = r.weights.length) :
    (processedSeries cashBuffer maxWeight r).map Prod.fst = r.tickers := by
  unfold processedSeries
  rw [map_fst_capWeights, map_fst_scaleEquity, map_fst_renormalize,
    map_fst_dustFilter, List.map_fst_zip]
  exact le_of_eq hlen

/-- The post-cap equity sum never exceeds 1 when the cash-buffer
configuration is valid (`cash_buffer_pct ∈ [0, 1]`). -/
theorem finalEquitySum_le_one (cashBuffer maxWeight : ℚ)
    (r : OptimizationResult) (hcb0 : 0 ≤ cashBuffer) (hcb1 : cashBuffer ≤ 1) :
    seriesSum (processedSeries cashBuffer maxWeight r) ≤ 1 := by
  unfold processedSeries
  set d := dustFilter (r.tickers.zip r.weights) with hd
  have hcap := seriesSum_capWeights_le maxWeight
    (scaleEquity cashBuffer (renormalize d))
  have hscale := seriesSum_scaleEquity cashBuffer (renormalize d)
  rcases seriesSum_renormalize d with h1 | h1
  · rw [h1] at hscale; nlinarith
  · nlinarith

theorem setUSDC_append (s : List (String × ℚ)) (u : ℚ)
    (h : "USDC" ∉ s.map Prod.fst) :
    setUSDC s u = s ++ [("USDC", u)] := by
  unfold setUSDC
  rw [if_neg]
  simp only [List.any_eq_true, decide_eq_true_eq, not_exists]
  intro p hp
  rcases hp with ⟨hmem, hlab⟩
  exact h (hlab ▸ List.mem_map_of_mem Prod.fst hmem)

end RWAEngine

namespace RWAEngine

/-- C2: for a valid input (ticker and weight lists of equal length,
non-negative weights, no pre-existing USDC ticker) and a valid cash-buffer
configuration, the weights returned by `apply_guardrails` — the processed
equity weights plus the appended synthetic USDC weight — sum to exactly 1
(hence to 1 within the 1e-6 tolerance of the specification). -/
theorem guardrailed_weights_sum_to_one (cashBuffer maxWeight : ℚ)
    (r : OptimizationResult)
    (hlen : r.tickers.length = r.weights.length)
    (husdc : "USDC" ∉ r.tickers)
    (hw : ∀ w ∈ r.weights, 0 ≤ w)
    (hcb0 : 0 ≤ cashBuffer) (hcb1 : cashBuffer ≤ 1) :
    ((applyGuardrails cashBuffer maxWeight r).weights).sum = 1 := by
  have hlabel : "USDC" ∉ (processedSeries cashBuffer maxWeight r).map Prod.fst := by
    rw [map_fst_processedSeries _ _ _ hlen]; exact husdc
  have hle := finalEquitySum_le_one cashBuffer maxWeight r hcb0 hcb1
  show ((setUSDC (processedSeries cashBuffer maxWeight r)
      (max (1 - seriesSum (processedSeries cashBuffer maxWeight r)) 0)).map
        Prod.snd).sum = 1
  rw [setUSDC_append _ _ hlabel]
  have : ((( processedSeries cashBuffer maxWeight r) ++
      [("USDC", max (1 - seriesSum (processedSeries cashBuffer maxWeight r)) 0)]).map
        Prod.snd).sum
      = seriesSum (processedSeries cashBuffer maxWeight r)
        + max (1 - seriesSum (processedSeries cashBuffer maxWeight r)) 0 := by
    rw [show ∀ t : List (String × ℚ), (t.map Prod.snd).sum = seriesSum t
      from fun t => rfl]
    rw [seriesSum_append]
    simp [seriesSum]
  rw [this, max_eq_left (by linarith)]
  ring

/-- Witness for C2 at a concrete input. -/
theorem guardrailed_weights_sum_to_one_witness :
    ((applyGuardrails (1/20) (3/10)
      { tickers := ["A", "B"], weights := [1/2, 1/2],
        expected_return := 1, volatility := 1, sharpe_ratio := 1 }).weights).sum
      = 1 :=
  guardrailed_weights_sum_to_one (1/20) (3/10) _
    (by decide) (by decide)
    (by intro w hw; fin_cases hw <;> norm_num)
    (by norm_num) (by norm_num)

/-- C3: Scenario B of the guardrail waterfall.  With input weights
`[0.005, 0.995, 0.0]`, `cash_buffer_pct = 0.05` and `max_weight_pct = 0.30`,
the first weight is dust-filtered to 0, the second is renormalized to 1,
scaled to 0.95 and capped to exactly 0.30, and the appended USDC cash
weight is 0.70. -/
theorem scenarioB_dust_and_cap :
    (applyGuardrails (1/20) (3/10)
      { tickers := ["RWA-A", "RWA-B", "RWA-C"],
        weights := [1/200, 199/200, 0],
        expected_return := 0, volatility := 0, sharpe_ratio := 0 }).weights
      = [0, 3/10, 0, 7/10]
    ∧ (applyGuardrails (1/20) (3/10)
      { tickers := ["RWA-A", "RWA-B", "RWA-C"],
        weights := [1/200, 199/200, 0],
        expected_return := 0, volatility := 0, sharpe_ratio := 0 }).tickers
      = ["RWA-A", "RWA-B", "RWA-C", "USDC"] := by
  constructor <;>
    norm_num [applyGuardrails, processedSeries, capWeights, scaleEquity,
      renormalize, dustFilter, seriesSum, setUSDC] <;>
    simp +decide

theorem guardrails_once_eval :
    applyGuardrails (1/20) (3/10)
      { tickers := ["A", "B"], weights := [1/2, 1/2],
        expected_return := 0, volatility := 0, sharpe_ratio := 0 }
      = { tickers := ["A", "B", "USDC"], weights := [3/10, 3/10, 2/5],
          expected_return := 0, volatility := 0, sharpe_ratio := 0 } := by
  norm_num [applyGuardrails, processedSeries, capWeights, scaleEquity,
    renormalize, dustFilter, seriesSum, setUSDC, OptimizationResult.mk.injEq]
  simp +decide

theorem guardrails_twice_eval :
    applyGuardrails (1/20) (3/10)
      { tickers := ["A", "B", "USDC"], weights := [3/10, 3/10, 2/5],
        expected_return := 0, volatility := 0, sharpe_ratio := 0 }
      = { tickers := ["A", "B", "USDC"],
          weights := [57/200, 57/200, 13/100],
          expected_return := 0, volatility := 0, sharpe_ratio := 0 } := by
  norm_num [applyGuardrails, processedSeries, capWeights, scaleEquity,
    renormalize, dustFilter, seriesSum, setUSDC, OptimizationResult.mk.injEq]
  simp +decide

/-- C1 counterexample: `apply_guardrails` is not idempotent.  On the raw
allocation [0.5, 0.5] over two assets with the default parameters
(`cash_buffer_pct = 0.05`, `max_weight_pct = 0.30`) one application yields
weights [0.30, 0.30, 0.40] — but the second application rescales and caps
the appended USDC position and then overwrites it with the new residual,
yielding [0.285, 0.285, 0.13], far beyond floating tolerance. -/
theorem apply_guardrails_not_idempotent :
    (applyGuardrails (1/20) (3/10)
      { tickers := ["A", "B"], weights := [1/2, 1/2],
        expected_return := 0, volatility := 0, sharpe_ratio := 0 }).weights
      = [3/10, 3/10, 2/5]
    ∧ (applyGuardrails (1/20) (3/10) (applyGuardrails (1/20) (3/10)
      { tickers := ["A", "B"], weights := [1/2, 1/2],
        expected_return := 0, volatility := 0, sharpe_ratio := 0 })).weights
      = [57/200, 57/200, 13/100]
    ∧ (applyGuardrails (1/20) (3/10) (applyGuardrails (1/20) (3/10)
      { tickers := ["A", "B"], weights := [1/2, 1/2],
        expected_return := 0, volatility := 0, sharpe_ratio := 0 }))
      ≠ applyGuardrails (1/20) (3/10)
      { tickers := ["A", "B"], weights := [1/2, 1/2],
        expected_return := 0, volatility := 0, sharpe_ratio := 0 } := by
  rw [guardrails_once_eval, guardrails_twice_eval]
  refine ⟨rfl, rfl, ?_⟩
  intro h
  have := congrArg OptimizationResult.weights h
  simp at this
  norm_num at this

/-! ### Fixed points of the guardrail pipeline -/

theorem dustFilter_eq_self (s : List (String × ℚ))
    (h : ∀ p ∈ s, p.2 = 0 ∨ 1/100 ≤ p.2) :
    dustFilter s = s := by
  induction s with
  | nil => rfl
  | cons p s ih =>
      have hp := h p (List.mem_cons_self p s)
      have hrest : ∀ q ∈ s, q.2 = 0 ∨ 1/100 ≤ q.2 :=
        fun q hq => h q (List.mem_cons_of_mem p hq)
      simp only [dustFilter, List.map_cons] at *
      rw [ih hrest]
      rcases hp with h0 | hge
      · rw [if_pos (by rw [h0]; norm_num), ← h0]
      · rw [if_neg (by linarith)]

theorem renormalize_eq_self (s : List (String × ℚ)) (h : seriesSum s = 1) :
    renormalize s = s := by
  unfold renormalize
  rw [if_pos (by rw [h]; norm_num), h]
  simp

theorem scaleEquity_zero (s : List (String × ℚ)) : scaleEquity 0 s = s := by
  unfold scaleEquity
  simp

theorem capWeights_eq_self (maxWeight : ℚ) (s : List (String × ℚ))
    (h : ∀ p ∈ s, p.2 ≤ maxWeight) :
    capWeights maxWeight s = s := by
  induction s with
  | nil => rfl
  | cons p s ih =>
      have hp := h p (List.mem_cons_self p s)
      have hrest : ∀ q ∈ s, q.2 ≤ maxWeight :=
        fun q hq => h q (List.mem_cons_of_mem p hq)
      simp only [capWeights, List.map_cons] at *
      rw [ih hrest, if_neg (by linarith)]

/-- C1 amended: the guardrail transform is a fixed point only on fully
settled allocations.  If the cash-buffer is 0, every equity weight is
either 0 or lies in `[0.01, max_weight_pct]`, the equity weights sum to
exactly 1, and the allocation carries a trailing USDC position of weight 0,
then `apply_guardrails` returns the allocation (weights and metrics)
unchanged.  (In general the transform is not idempotent: a positive USDC
residual is reprocessed as an ordinary position and then overwritten.) -/
theorem apply_guardrails_fixed_point (maxWeight : ℚ) (ts : List String)
    (ws : List ℚ) (er vol sh : ℚ)
    (hlen : ts.length = ws.length)
    (husdc : "USDC" ∉ ts)
    (hmw : 0 ≤ maxWeight)
    (hw : ∀ w ∈ ws, w = 0 ∨ (1/100 ≤ w ∧ w ≤ maxWeight))
    (hsum : ws.sum = 1) :
    applyGuardrails 0 maxWeight
      { tickers := ts ++ ["USDC"], weights := ws ++ [0],
        expected_return := er, volatility := vol, sharpe_ratio := sh }
      = { tickers := ts ++ ["USDC"], weights := ws ++ [0],
          expected_return := er, volatility := vol, sharpe_ratio := sh } := by
  have hzip : (ts ++ ["USDC"]).zip (ws ++ [0]) = ts.zip ws ++ [("USDC", 0)] :=
    List.zip_append hlen
  have hmem : ∀ p ∈ ts.zip ws ++ [("USDC", 0)],
      (p.2 = 0 ∨ (1/100 ≤ p.2 ∧ p.2 ≤ maxWeight)) := by
    intro p hp
    rcases List.mem_append.mp hp with hp | hp
    · exact hw p.2 (List.of_mem_zip hp).2
    · simp at hp; rw [hp]; left; rfl
  have hsum0 : seriesSum (ts.zip ws ++ [("USDC", 0)]) = 1 := by
    rw [seriesSum_append]
    have : seriesSum (ts.zip ws) = ws.sum := by
      show ((ts.zip ws).map Prod.snd).sum = ws.sum
      rw [List.map_snd_zip ts ws (le_of_eq hlen.symm)]
    rw [this, hsum]
    simp [seriesSum]
  have hfix : processedSeries 0 maxWeight
      { tickers := ts ++ ["USDC"], weights := ws ++ [0],
        expected_return := er, volatility := vol, sharpe_ratio := sh }
      = ts.zip ws ++ [("USDC", 0)] := by
    unfold processedSeries
    simp only [hzip]
    rw [dustFilter_eq_self _ (fun p hp => (hmem p hp).imp id And.left),
      renormalize_eq_self _ hsum0, scaleEquity_zero,
      capWeights_eq_self _ _ (fun p hp => by
        rcases hmem p hp with h0 | hin
        · rw [h0]; exact hmw
        · exact hin.2)]
  show (let s := processedSeries 0 maxWeight _
        let finalEquitySum := seriesSum s
        let usdcWeight := max (1 - finalEquitySum) 0
        let s5 := setUSDC s usdcWeight
        OptimizationResult.mk (s5.map Prod.fst) (s5.map Prod.snd)
          (er * finalEquitySum) (vol * finalEquitySum) sh) = _
  simp only [hfix, hsum0]
  have husdc5 : setUSDC (ts.zip ws ++ [("USDC", 0)]) (max (1 - 1) 0)
      = ts.zip ws ++ [("USDC", 0)] := by
    unfold setUSDC
    rw [if_pos (by simp)]
    rw [List.map_append]
    have step : (ts.zip ws).map
        (fun p => (p.1, if p.1 = "USDC" then max (1 - 1 : ℚ) 0 else p.2))
        = (ts.zip ws).map id :=
      List.map_congr_left (fun p hp => by
        rw [if_neg (fun hpe => husdc (by
          rw [← hpe]
          exact (List.of_mem_zip hp).1))]
        rfl)
    rw [step, List.map_id]
    norm_num
  rw [husdc5]
  have hfst : ((ts.zip ws ++ [("USDC", 0)]).map Prod.fst) = ts ++ ["USDC"] := by
    rw [List.map_append, List.map_fst_zip ts ws (le_of_eq hlen)]
    rfl
  have hsnd : ((ts.zip ws ++ [("USDC", 0)]).map Prod.snd) = ws ++ [0] := by
    rw [List.map_append, List.map_snd_zip ts ws (le_of_eq hlen.symm)]
    rfl
  rw [hfst, hsnd, mul_one, mul_one]

/-- C10: every USDC-labelled entry of the guardrailed output equals
`max(1 - s, 0)` where `s` is the post-cap sum of all processed input
positions — including a processed USDC position when the input tickers
already contained one (it is dust-filtered, renormalized, buffer-scaled,
capped, counted into `s`, and then overwritten by the residual).
Consequently an input that already carries a USDC ticker can produce
output weights that do not sum to 1, as the concrete second conjunct
shows (the sum there is 7/10). -/
theorem usdc_residual_is_postcap_complement :
    (∀ (cashBuffer maxWeight : ℚ) (r : OptimizationResult) (v : ℚ),
      ("USDC", v) ∈ ((applyGuardrails cashBuffer maxWeight r).tickers.zip
        (applyGuardrails cashBuffer maxWeight r).weights) →
      v = max (1 - seriesSum (processedSeries cashBuffer maxWeight r)) 0)
    ∧ (applyGuardrails (1/20) (3/10)
        { tickers := ["A", "USDC"], weights := [1/2, 1/2],
          expected_return := 0, volatility := 0,
          sharpe_ratio := 0 }).weights.sum ≠ 1 := by
  constructor
  · intro cashBuffer maxWeight r v hv
    have hout : (applyGuardrails cashBuffer maxWeight r).tickers.zip
        (applyGuardrails cashBuffer maxWeight r).weights
        = setUSDC (processedSeries cashBuffer maxWeight r)
          (max (1 - seriesSum (processedSeries cashBuffer maxWeight r)) 0) := by
      show ((setUSDC (processedSeries cashBuffer maxWeight r)
          (max (1 - seriesSum (processedSeries cashBuffer maxWeight r)) 0)).map
            Prod.fst).zip
        ((setUSDC (processedSeries cashBuffer maxWeight r)
          (max (1 - seriesSum (processedSeries cashBuffer maxWeight r)) 0)).map
            Prod.snd) = _
      rw [List.zip_map']
      simp
    rw [hout] at hv
    unfold setUSDC at hv
    by_cases hany : ((processedSeries cashBuffer maxWeight r).any
        (fun p => p.1 = "USDC")) = true
    · rw [if_pos hany] at hv
      rcases List.mem_map.mp hv with ⟨p, hp, he⟩
      have h1 : p.1 = "USDC" := congrArg Prod.fst he
      have h2 := congrArg Prod.snd he
      simp only [h1, if_pos] at h2
      exact h2.symm
    · rw [if_neg hany] at hv
      rcases List.mem_append.mp hv with hp | hp
      · exact absurd (List.any_eq_true.mpr ⟨("USDC", v), hp, by simp⟩) hany
      · simp at hp
        exact hp
  · rw [show (applyGuardrails (1/20) (3/10)
        { tickers := ["A", "USDC"], weights := [1/2, 1/2],
          expected_return := 0, volatility := 0,
          sharpe_ratio := 0 }).weights = [3/10, 2/5] from by
      norm_num [applyGuardrails, processedSeries, capWeights, scaleEquity,
        renormalize, dustFilter, seriesSum, setUSDC]
      simp +decide]
    norm_num

/-- Witness for C10 at a concrete input already containing a USDC ticker:
the residual formula instantiated where the post-cap processed sum is 3/5. -/
theorem usdc_residual_is_postcap_complement_witness :
    (2 : ℚ)/5 = max (1 - seriesSum (processedSeries (1/20) (3/10)
      { tickers := ["A", "USDC"], weights := [1/2, 1/2],
        expected_return := 0, volatility := 0, sharpe_ratio := 0 })) 0 :=
  usdc_residual_is_postcap_complement.1 (1/20) (3/10)
    { tickers := ["A", "USDC"], weights := [1/2, 1/2],
      expected_return := 0, volatility := 0, sharpe_ratio := 0 } (2/5)
    (by norm_num [applyGuardrails, processedSeries, capWeights, scaleEquity,
          renormalize, dustFilter, seriesSum, setUSDC])

/-- Witness for the amended C1 at a concrete settled allocation. -/
theorem apply_guardrails_fixed_point_witness :
    applyGuardrails 0 (1/2)
      { tickers := ["A", "B"] ++ ["USDC"], weights := [1/2, 1/2] ++ [0],
        expected_return := 2, volatility := 3, sharpe_ratio := 4 }
      = { tickers := ["A", "B"] ++ ["USDC"], weights := [1/2, 1/2] ++ [0],
          expected_return := 2, volatility := 3, sharpe_ratio := 4 } :=
  apply_guardrails_fixed_point (1/2) ["A", "B"] [1/2, 1/2] 2 3 4
    (by decide) (by decide) (by norm_num)
    (by intro w hw; fin_cases hw <;> norm_num) (by norm_num)

/-! ## BlackLittermanEngine (`core/engine.py`)

`run_optimization` delegates the posterior blend and the max-Sharpe solve
to PyPortfolioOpt.  Those external calls are embedded as function
parameters: `blend` stands for the `BlackLittermanModel` posterior
computation, and `solve` stands for the `EfficientFrontier` max-Sharpe
solve wrapped in the `try/except` of lines 121–127 — `none` models any
exception raised by the solver, `some` a successful cleaned solution. -/

/-- Posterior distribution handed to the optimizer: expected-return
vector and covariance matrix over the ticker universe. -/
structure Posterior where
  mean : List ℚ
  cov : List (List ℚ)
deriving DecidableEq, Repr

/-- Successful solver output: cleaned weights plus the three performance
numbers from `portfolio_performance`. -/
structure SolverOutput where
  weights : List ℚ
  expected_return : ℚ
  volatility : ℚ
  sharpe_ratio : ℚ
deriving DecidableEq, Repr

/-- Mirror of `BlackLittermanEngine._fallback_result`: the same ticker
list, every weight 0.0, and all three performance metrics 0. -/
def fallbackResult (tickers : List String) : OptimizationResult :=
  { tickers := tickers
    weights := List.replicate tickers.length 0
    expected_return := 0
    volatility := 0
    sharpe_ratio := 0 }

/-- Posterior selection of `run_optimization` lines 89–113: with no views
the market prior and the shrinkage covariance are used directly; otherwise
the BL blend (PyPortfolioOpt, abstracted as `blend`) is computed on the
parsed views. -/
def selectPosterior (views : List InvestorView) (marketPrior : List ℚ)
    (S : List (List ℚ)) (blend : List InvestorView → Posterior) : Posterior :=
  if views.isEmpty then { mean := marketPrior, cov := S } else blend views

/-- Mirror of `BlackLittermanEngine.run_optimization` after the prior
computation: select the posterior, run the solver, and on any solver
exception return the flight-to-safety fallback instead of propagating. -/
def runOptimization (tickers : List String) (views : List InvestorView)
    (marketPrior : List ℚ) (S : List (List ℚ))
    (blend : List InvestorView → Posterior)
    (solve : Posterior → Option SolverOutput) : OptimizationResult :=
  match solve (selectPosterior views marketPrior S blend) with
  | none => fallbackResult tickers
  | some out =>
      { tickers := tickers
        weights := out.weights
        expected_return := out.expected_return
        volatility := out.volatility
        sharpe_ratio := out.sharpe_ratio }

/-- C4: whenever the solver fails (raises, modelled by `solve` returning
`none`), `run_optimization` returns the flight-to-safety result — the same
ticker list, every weight 0, and expected return, volatility and Sharpe
ratio all 0.  The embedding is a total function, so no exception escapes
the optimize boundary in this case. -/
theorem solver_failure_flight_to_safety (tickers : List String)
    (views : List InvestorView) (marketPrior : List ℚ) (S : List (List ℚ))
    (blend : List InvestorView → Posterior)
    (solve : Posterior → Option SolverOutput)
    (hfail : solve (selectPosterior views marketPrior S blend) = none) :
    runOptimization tickers views marketPrior S blend solve
      = { tickers := tickers
          weights := List.replicate tickers.length 0
          expected_return := 0
          volatility := 0
          sharpe_ratio := 0 } := by
  unfold runOptimization
  rw [hfail]
  rfl

/-- Witness for C4 with a concretely failing solver. -/
theorem solver_failure_flight_to_safety_witness :
    runOptimization ["A", "B", "C"] [] [1/10, 1/5, 3/10]
      [[1, 0, 0], [0, 1, 0], [0, 0, 1]]
      (fun _ => { mean := [], cov := [] }) (fun _ => none)
      = { tickers := ["A", "B", "C"]
          weights := List.replicate 3 0
          expected_return := 0
          volatility := 0
          sharpe_ratio := 0 } :=
  solver_failure_flight_to_safety ["A", "B", "C"] [] [1/10, 1/5, 3/10]
    [[1, 0, 0], [0, 1, 0], [0, 0, 1]]
    (fun _ => { mean := [], cov := [] }) (fun _ => none) rfl

/-- C5: with an empty view list the posterior used for optimization is
exactly the market prior and the unchanged shrinkage covariance.  The
statement holds for every `blend` function, so no blending computation is
performed on an empty picking matrix. -/
theorem no_views_posterior_is_prior (marketPrior : List ℚ)
    (S : List (List ℚ)) (blend : List InvestorView → Posterior) :
    selectPosterior [] marketPrior S blend
      = { mean := marketPrior, cov := S } :=
  rfl

/-! ### View parsing (`BlackLittermanEngine._parse_views`)

The Python code builds `mapper = {t: idx for idx, t in enumerate(tickers)}`
(a dict, so for a duplicated ticker the later index wins) and, for each
view, writes `P[i, mapper[asset]] = weight` for every known asset while
merely logging unknown assets.  `Q[i]` and the confidence are recorded for
every view unconditionally. -/

/-- Index lookup through the ticker → column dict: iterate the tickers in
order, the last occurrence of the queried ticker winning, `none` when the
ticker is absent. -/
def tickerIndexAux (a : String) : List String → ℕ → Option ℕ → Option ℕ
  | [], _, acc => acc
  | t :: ts, i, acc => tickerIndexAux a ts (i + 1) (if t = a then some i else acc)

/-- Column index of ticker `a` in the dict built from `tickers`. -/
def tickerIndex (tickers : List String) (a : String) : Option ℕ :=
  tickerIndexAux a tickers 0 none

/-- One row of the picking matrix P: start from a zero row and write each
(asset, weight) pair of the view whose asset is in the mapper; pairs whose
asset is unknown leave the row untouched (the code only logs them). -/
def buildRow (tickers : List String) (assets : List String)
    (weights : List ℚ) : List ℚ :=
  (assets.zip weights).foldl
    (fun row p =>
      match tickerIndex tickers p.1 with
      | some idx => row.set idx p.2
      | none => row)
    (List.replicate tickers.length 0)

/-- Mirror of `_parse_views`: the Q vector, the picking matrix P (one row
per view) and the confidence list, in view order. -/
def parseViews (views : List InvestorView) (tickers : List String) :
    List ℚ × List (List ℚ) × List ℚ :=
  (views.map (fun v => v.expected_return),
   views.map (fun v => buildRow tickers v.assets v.weights),
   views.map (fun v => v.confidence))

theorem tickerIndexAux_none (a : String) (ts : List String) (i : ℕ)
    (h : a ∉ ts) : tickerIndexAux a ts i none = none := by
  induction ts generalizing i with
  | nil => rfl
  | cons t ts ih =>
      have hta : t ≠ a := fun he => h (he ▸ List.mem_cons_self t ts)
      have hrest : a ∉ ts := fun hm => h (List.mem_cons_of_mem t hm)
      simp only [tickerIndexAux, if_neg hta]
      exact ih (i + 1) hrest

theorem tickerIndex_eq_none (tickers : List String) (a : String)
    (h : a ∉ tickers) : tickerIndex tickers a = none :=
  tickerIndexAux_none a tickers 0 h

theorem buildRow_foldl_unchanged (tickers : List String)
    (pairs : List (String × ℚ)) (row : List ℚ)
    (h : ∀ p ∈ pairs, p.1 ∉ tickers) :
    pairs.foldl
      (fun row p =>
        match tickerIndex tickers p.1 with
        | some idx => row.set idx p.2
        | none => row)
      row = row := by
  induction pairs generalizing row with
  | nil => rfl
  | cons p ps ih =>
      rw [List.foldl_cons, tickerIndex_eq_none tickers p.1
        (h p (List.mem_cons_self p ps))]
      exact ih row (fun q hq => h q (List.mem_cons_of_mem p hq))

/-- C8 counterexample: a view referencing only the unknown asset "B" on
the universe ["A"] is NOT dropped by `_parse_views`.  Its expected return
still occupies the (unique) entry of Q, its confidence is kept, and P
keeps an all-zero row for it — so blending proceeds with K = 1, not with
the view removed. -/
theorem unknown_asset_view_not_dropped :
    parseViews [{ assets := ["B"], weights := [1], expected_return := 3/10,
                  confidence := 19/20 }] ["A"]
      = ([3/10], [[0]], [19/20])
    ∧ (parseViews [{ assets := ["B"], weights := [1], expected_return := 3/10,
                     confidence := 19/20 }] ["A"]).1 ≠ [] := by
  constructor
  · show (([3/10], [List.replicate 1 0], [19/20]) :
      List ℚ × List (List ℚ) × List ℚ) = ([3/10], [[0]], [19/20])
    rfl
  · intro h
    exact List.cons_ne_nil _ _ h

/-- C8 amended: an out-of-universe asset inside a view contributes nothing
to the picking matrix — a view all of whose assets are unknown gets an
all-zero P row — but the view itself is retained: K equals the number of
supplied views and every view's expected return and confidence are kept
in Q and the confidence vector. -/
theorem unknown_asset_skipped_per_asset (views : List InvestorView)
    (tickers : List String) :
    (parseViews views tickers).1 = views.map (fun v => v.expected_return)
    ∧ (parseViews views tickers).2.2 = views.map (fun v => v.confidence)
    ∧ (parseViews views tickers).2.1.length = views.length
    ∧ ∀ v ∈ views, (∀ a ∈ v.assets, a ∉ tickers) →
        buildRow tickers v.assets v.weights
          = List.replicate tickers.length 0 := by
  refine ⟨rfl, rfl, by simp [parseViews], ?_⟩
  intro v _ hunknown
  unfold buildRow
  apply buildRow_foldl_unchanged
  intro p hp
  exact hunknown p.1 (List.of_mem_zip hp).1

/-- Witness for the amended C8: a fully-unknown view on the one-ticker
universe gets the all-zero P row. -/
theorem unknown_asset_skipped_per_asset_witness :
    buildRow ["A"] ["B", "C"] [1, -1] = List.replicate 1 0 :=
  (unknown_asset_skipped_per_asset
    [{ assets := ["B", "C"], weights := [1, -1], expected_return := 1/10,
       confidence := 1/2 }] ["A"]).2.2.2
    { assets := ["B", "C"], weights := [1, -1], expected_return := 1/10,
      confidence := 1/2 }
    (List.mem_cons_self _ _)
    (by intro a ha; fin_cases ha <;> decide)

/-! ## Black-Litterman math (`core/bl_math.py`)

NumPy vectors and matrices are embedded as `Fin`-indexed functions over ℚ.
The optional `confidences` list is embedded as a plain list whose
emptiness models Python falsiness (`if confidences:` is false both for
`None` and for an empty list). -/

/-- Per-view variance of `compute_posterior` lines 89–90: the i-th
diagonal entry of `P @ (tau*Sigma) @ P.T`. -/
def viewVariance {K N : ℕ} (P : Fin K → Fin N → ℚ)
    (tauSigma : Fin N → Fin N → ℚ) (i : Fin K) : ℚ :=
  ∑ j, ∑ k, P i j * tauSigma j k * P i k

/-- Omega construction of `compute_posterior` lines 95–101: when the
confidence list is truthy, `Omega = diag(view_variances * adj_factors)`
with `adj = 1/c if c > 0 else 1e6`; otherwise `Omega =
diag(view_variances)`. -/
def omegaMatrix {K : ℕ} (viewVars : Fin K → ℚ) (confidences : List ℚ) :
    Fin K → Fin K → ℚ :=
  if confidences.isEmpty then
    fun i j => if i = j then viewVars i else 0
  else
    fun i j =>
      if i = j then
        viewVars i *
          (if 0 < confidences.getD i.val 0 then 1 / confidences.getD i.val 0
           else 10 ^ 6)
      else 0

/-- The Omega matrix as `compute_posterior` builds it from P, Sigma and
tau: view variances from the diagonal of `P·τΣ·Pᵗ`, then the confidence
adjustment. -/
def computeOmega {K N : ℕ} (P : Fin K → Fin N → ℚ)
    (Sigma : Fin N → Fin N → ℚ) (tau : ℚ) (confidences : List ℚ) :
    Fin K → Fin K → ℚ :=
  omegaMatrix (viewVariance P (fun j k => tau * Sigma j k)) confidences

/-- C6: Omega is diagonal; with a supplied (non-empty) confidence list its
i-th diagonal entry is `variance_i / confidence_i` for positive
confidence and `variance_i * 1e6` (the clamp making Omega very large, so
the view is effectively ignored) for confidence ≤ 0; with no confidences
the diagonal entry is `variance_i`, where `variance_i` is the i-th
diagonal entry of `P·τΣ·Pᵗ`. -/
theorem omega_diagonal_spec {K N : ℕ} (P : Fin K → Fin N → ℚ)
    (Sigma : Fin N → Fin N → ℚ) (tau : ℚ) (confidences : List ℚ) :
    (∀ i j : Fin K, i ≠ j → computeOmega P Sigma tau confidences i j = 0)
    ∧ (confidences ≠ [] → ∀ i : Fin K,
        (0 < confidences.getD i.val 0 →
          computeOmega P Sigma tau confidences i i
            = viewVariance P (fun j k => tau * Sigma j k) i
              / confidences.getD i.val 0)
        ∧ (confidences.getD i.val 0 ≤ 0 →
          computeOmega P Sigma tau confidences i i
            = viewVariance P (fun j k => tau * Sigma j k) i * 10 ^ 6))
    ∧ (confidences = [] → ∀ i : Fin K,
        computeOmega P Sigma tau confidences i i
          = viewVariance P (fun j k => tau * Sigma j k) i) := by
  refine ⟨?_, ?_, ?_⟩
  · intro i j hij
    unfold computeOmega omegaMatrix
    split <;> exact if_neg hij
  · intro hne i
    have hemp : confidences.isEmpty = false := by
      cases confidences with
      | nil => exact absurd rfl hne
      | cons c cs => rfl
    constructor
    · intro hpos
      unfold computeOmega omegaMatrix
      rw [if_neg (by rw [hemp]; exact Bool.false_ne_true), if_pos rfl,
        if_pos hpos, mul_one_div]
    · intro hnonpos
      unfold computeOmega omegaMatrix
      rw [if_neg (by rw [hemp]; exact Bool.false_ne_true), if_pos rfl,
        if_neg (not_lt.mpr hnonpos)]
  · intro hnil i
    unfold computeOmega omegaMatrix
    rw [if_pos (by rw [hnil]; rfl), if_pos rfl]

/-- Witness for C6 on a 1-view, 1-asset instance with confidence 1/2:
Omega(0,0) equals the view variance divided by the confidence. -/
theorem omega_diagonal_spec_witness :
    computeOmega (K := 1) (N := 1) (fun _ _ => (1 : ℚ)) (fun _ _ => (1 : ℚ))
        (1/20) [1/2] 0 0
      = viewVariance (K := 1) (N := 1) (fun _ _ => (1 : ℚ))
          (fun j k => (1/20) * (fun _ _ => (1 : ℚ)) j k) 0
        / ([(1 : ℚ)/2].getD (0 : Fin 1).val 0) :=
  (((omega_diagonal_spec (K := 1) (N := 1) (fun _ _ => (1 : ℚ))
      (fun _ _ => (1 : ℚ)) (1/20) [1/2]).2.1
        (List.cons_ne_nil _ _) 0).1 (by norm_num))

/-- Mirror of `compute_market_implied_prior`: normalize market caps to
weights and return `delta * Sigma @ w + rf`.  The pandas division of an
all-zero cap vector by its zero sum yields NaN entries which the
subsequent `fillna(0)` turns into 0; rational division by zero in Lean
equals 0, matching that path for non-negative caps.  The reindex step is
modelled by taking `caps` already aligned to Sigma's asset order. -/
def computeMarketImpliedPrior {N : ℕ} (Sigma : Fin N → Fin N → ℚ)
    (caps : Fin N → ℚ) (delta rf : ℚ) : Fin N → ℚ :=
  fun i => delta * (∑ j, Sigma i j * (caps j / ∑ k, caps k)) + rf

/-- C7 counterexample: with both market caps equal to 0 (total cap 0) the
prior calculation does NOT fail — no error type exists in the code and no
exception is raised on this path — and it returns the numeric vector
whose every entry is the risk-free rate. -/
theorem zero_caps_prior_returns_rf :
    computeMarketImpliedPrior (N := 2) (fun _ _ => 1) (fun _ => 0)
        (5/2) (1/25)
      = fun _ => 1/25 := by
  funext i
  simp [computeMarketImpliedPrior]

/-- C7 amended: for non-negative market caps summing to zero,
`compute_market_implied_prior` raises nothing and returns the prior equal
to the risk-free rate at every asset (zero caps give zero market weights
after the NaN fill, so `delta * Sigma @ w` vanishes). -/
theorem zero_caps_prior_is_riskfree {N : ℕ} (Sigma : Fin N → Fin N → ℚ)
    (caps : Fin N → ℚ) (delta rf : ℚ)
    (hnn : ∀ i, 0 ≤ caps i) (hzero : ∑ i, caps i = 0) :
    computeMarketImpliedPrior Sigma caps delta rf = fun _ => rf := by
  have hall : ∀ i, caps i = 0 := by
    intro i
    have := (Finset.sum_eq_zero_iff_of_nonneg
      (fun j _ => hnn j)).mp hzero
    exact this i (Finset.mem_univ i)
  funext i
  simp [computeMarketImpliedPrior, hall]

/-- Witness for the amended C7 on a concrete 2-asset instance. -/
theorem zero_caps_prior_is_riskfree_witness :
    computeMarketImpliedPrior (N := 2) (fun _ _ => 3) (fun _ => 0)
        (5/2) (1/25)
      = fun _ => 1/25 :=
  zero_caps_prior_is_riskfree (fun _ _ => 3) (fun _ => 0) (5/2) (1/25)
    (fun _ => le_refl 0) (by simp)

/-! ## Backtester (`analysis/backtester.py`)

The per-interval body of `Backtester.run` (lines 62–87): rebalancing
happens only under `if len(hist_data) > 100`, in which case every
registered strategy is asked for new weights; a strategy whose rebalance
raises or returns falsy weights keeps its prior allocation.  A strategy
outcome is embedded as `Option` weights: `none` models both an exception
and falsy (empty) weights. -/

/-- The rebalance gate of line 71: `if len(hist_data) > 100`. -/
def rebalanceTriggered (histLen : ℕ) : Bool :=
  decide (100 < histLen)

/-- Per-strategy update of lines 72–87: new weights replace the current
ones on success, the prior allocation persists on failure or falsy
output. -/
def stepStrategy (outcome : Option (List (String × ℚ)))
    (current : List (String × ℚ)) : List (String × ℚ) :=
  match outcome with
  | some w => w
  | none => current

/-- One rebalance boundary of the walk-forward loop: when the lookback
slice has more than 100 observations every strategy is updated from its
outcome; otherwise all current weights persist untouched. -/
def backtestStep (histLen : ℕ)
    (outcomes : List (Option (List (String × ℚ))))
    (current : List (List (String × ℚ))) : List (List (String × ℚ)) :=
  if 100 < histLen then
    (outcomes.zip current).map (fun p => stepStrategy p.1 p.2)
  else
    current

/-- C9 counterexample: a lookback slice of exactly 100 observations has
at least 100 observations, yet the code skips rebalancing (the gate is
`> 100`, not `≥ 100`): the strategy's successful outcome is discarded and
the prior all-cash weights persist. -/
theorem rebalance_at_exactly_100_skipped :
    rebalanceTriggered 100 = false
    ∧ 100 ≤ 100
    ∧ backtestStep 100 [some [("A", 1)]] [[("USDC", 1)]] = [[("USDC", 1)]] :=
  ⟨rfl, le_refl 100, rfl⟩

/-- C9 amended: rebalancing is skipped exactly when the lookback slice
has at most 100 observations (prior weights persist for every strategy);
with more than 100 observations every registered strategy's rebalance
outcome is applied. -/
theorem rebalance_skip_iff_at_most_100 (histLen : ℕ)
    (outcomes : List (Option (List (String × ℚ))))
    (current : List (List (String × ℚ))) :
    (histLen ≤ 100 → backtestStep histLen outcomes current = current)
    ∧ (100 < histLen → backtestStep histLen outcomes current
        = (outcomes.zip current).map (fun p => stepStrategy p.1 p.2))
    ∧ (rebalanceTriggered histLen = true ↔ 100 < histLen) := by
  refine ⟨?_, ?_, ?_⟩
  · intro h
    unfold backtestStep
    rw [if_neg (not_lt.mpr h)]
  · intro h
    unfold backtestStep
    rw [if_pos h]
  · simp [rebalanceTriggered]

/-- Witness for the amended C9 at slice lengths 100 and 101. -/
theorem rebalance_skip_iff_at_most_100_witness :
    backtestStep 100 [some [("A", 1)]] [[("USDC", 1)]] = [[("USDC", 1)]]
    ∧ backtestStep 101 [some [("A", 1)]] [[("USDC", 1)]] = [[("A", 1)]] :=
  ⟨(rebalance_skip_iff_at_most_100 100 [some [("A", 1)]]
      [[("USDC", 1)]]).1 (by norm_num),
   by rw [(rebalance_skip_iff_at_most_100 101 [some [("A", 1)]]
      [[("USDC", 1)]]).2.1 (by norm_num)]
      rfl⟩

end RWAEngine
